import Mathlib

/-!
Verification of the cart / pricing / filtering core of a client-rendered
restaurant menu page.  The page source contains two near-identical variants
of the same component; both variants' cart operations are identical and are
embedded once, while the two `formatPrice` variants are embedded separately.

Strings are modelled as `List Char`; JavaScript numbers occurring in the
menu data (prices, quantities) are modelled as `Int`.  Optional / possibly
`undefined` fields are modelled with `Option`.
-/

namespace Matbakh

/-- Strings of the page are modelled as lists of characters. -/
abbrev Str := List Char

/-- JavaScript string truthiness: `undefined`, `null` and `""` are falsy. -/
def jsTruthy : Option Str → Bool
  | none => false
  | some s => !s.isEmpty

/-- Interpolation of a possibly-undefined string into a template literal:
JavaScript renders `undefined` as the text "undefined". -/
def jsStr : Option Str → Str
  | none => ("undefined").toList
  | some s => s

/-- Character-wise lower-casing, modelling `String.prototype.toLowerCase`. -/
def toLowerStr (s : Str) : Str := s.map Char.toLower

/-- `s.includes(sub)`: substring containment test. -/
def includesStr (s sub : Str) : Bool := decide (sub <:+: s)

/-- The value of an item's `price` field in the menu JSON: absent
(`null`/`undefined`/`''`), a scalar number, or an array of numbers. -/
inductive PriceVal where
  | missing : PriceVal
  | num : Int → PriceVal
  | arr : List Int → PriceVal
  deriving DecidableEq, Repr

/-- A menu item as it appears in the static catalog. -/
structure MenuItem where
  name : Option Str
  name_ar : Option Str
  description : Option Str
  description_ar : Option Str
  price : PriceVal
  deriving DecidableEq, Repr

/-- A category record of the catalog object. -/
structure CategoryData where
  name : Option Str
  name_ar : Option Str
  heroImage : Option Str
  items : Option (List MenuItem)
  deriving DecidableEq, Repr

/-- The catalog object `menuData`: category id keyed records, in insertion
order, modelled as an association list. -/
abbrev Catalog := List (Str × CategoryData)

/-- Property access `menuData[selectedCategory]`. -/
def lookupCategory (menuData : Catalog) (key : Str) : Option CategoryData :=
  (menuData.find? (fun p => decide (p.1 = key))).map Prod.snd

/-- A cart line: `{ ...item, price: cartPrice, quantity }`.  The spread
copies the item's text fields; `price` is overwritten with the resolved
scalar unit price (which is `undefined` exactly when the item's price was
an empty array) and `quantity` with the added quantity.  Every line ever
constructed carries a numeric quantity, so `quantity` is a plain `Int`. -/
structure CartLine where
  name : Option Str
  name_ar : Option Str
  description : Option Str
  description_ar : Option Str
  price : Option Int
  quantity : Int
  deriving DecidableEq, Repr

/-- The cart state. -/
abbrev Cart := List CartLine

/-- `Array.isArray(item.price) ? item.price[0] : (item.price || 0)`:
the unit price captured when a line is first created. -/
def resolveCartPrice : PriceVal → Option Int
  | .arr [] => none
  | .arr (p :: _) => some p
  | .num n => some n
  | .missing => some 0

/-- The new line `{ ...item, price: cartPrice, quantity }`. -/
def mkCartLine (it : MenuItem) (quantity : Int) : CartLine :=
  { name := it.name, name_ar := it.name_ar, description := it.description,
    description_ar := it.description_ar, price := resolveCartPrice it.price,
    quantity := quantity }

/-- `prev.find(cartItem => cartItem.name === item.name)`, reused as the
lookup of the line for a given name. -/
def findLine (cart : Cart) (n : Option Str) : Option CartLine :=
  cart.find? (fun l => decide (l.name = n))

/-- `addToCart(item, quantity)`: no-op on a falsy item; if a line with the
item's name exists its quantity is incremented (the locked price is kept),
else a new line is appended with the freshly resolved unit price. -/
def addToCart (cart : Cart) (item : Option MenuItem) (quantity : Int) : Cart :=
  match item with
  | none => cart
  | some it =>
    match findLine cart it.name with
    | some _ =>
      cart.map (fun l =>
        if l.name = it.name then { l with quantity := l.quantity + quantity } else l)
    | none => cart ++ [mkCartLine it quantity]

/-- `removeFromCart(itemName)`: drop every line whose name equals the
argument. -/
def removeFromCart (cart : Cart) (itemName : Option Str) : Cart :=
  cart.filter (fun l => !(decide (l.name = itemName)))

/-- `updateQuantity(itemName, newQuantity)`: remove the line when the new
quantity is `≤ 0`, otherwise set the named line's quantity to exactly the
new quantity. -/
def updateQuantity (cart : Cart) (itemName : Option Str) (newQuantity : Int) : Cart :=
  if newQuantity ≤ 0 then removeFromCart cart itemName
  else cart.map (fun l =>
    if l.name = itemName then { l with quantity := newQuantity } else l)

/-- `getTotalItems()`: `cart.reduce((sum, item) => sum + (item.quantity || 0), 0)`.
Lines always carry a numeric quantity, so the `|| 0` guard is the identity. -/
def getTotalItems (cart : Cart) : Int :=
  cart.foldl (fun sum item => sum + item.quantity) 0

/-- `getTotalPrice()`: `cart.reduce((sum, item) => sum + ((item.price || 0) * (item.quantity || 0)), 0)`.
A missing unit price contributes `0`. -/
def getTotalPrice (cart : Cart) : Int :=
  cart.foldl (fun sum item => sum + (item.price.getD 0) * item.quantity) 0

/-- One user-triggered cart operation, with arbitrary arguments. -/
inductive Op where
  | add (item : Option MenuItem) (quantity : Int)
  | update (name : Option Str) (newQuantity : Int)
  | remove (name : Option Str)
  | clear
  deriving DecidableEq, Repr

/-- Effect of one operation on the cart (`clearCart` also clears the order
notes; the notes are irrelevant to the cart-state claims). -/
def applyOp (cart : Cart) : Op → Cart
  | .add item quantity => addToCart cart item quantity
  | .update n q => updateQuantity cart n q
  | .remove n => removeFromCart cart n
  | .clear => []

/-- Run a finite sequence of cart operations. -/
def applyOps (ops : List Op) (cart : Cart) : Cart :=
  ops.foldl applyOp cart

/-- Specification-side total: the sum over all cart lines of
`quantity * unitPrice`, a missing price counting as `0`. -/
def specTotalPrice (cart : Cart) : Int :=
  (cart.map (fun l => (l.price.getD 0) * l.quantity)).sum

lemma getTotalPrice_aux (cart : Cart) :
    ∀ a : Int, cart.foldl (fun sum item => sum + (item.price.getD 0) * item.quantity) a
      = a + specTotalPrice cart := by
  induction cart with
  | nil => intro a; simp [specTotalPrice]
  | cons l c ih =>
    intro a
    simp only [List.foldl_cons, specTotalPrice, List.map_cons, List.sum_cons] at *
    rw [ih]
    ring

lemma getTotalPrice_eq (cart : Cart) : getTotalPrice cart = specTotalPrice cart := by
  simpa using getTotalPrice_aux cart 0

/-- Claim C1: for every cart state reachable by any finite sequence of
`addToCart`, `updateQuantity`, `removeFromCart` and `clearCart` operations,
`getTotalPrice()` equals the sum over all cart lines of
`quantity * unitPrice`, a missing price or quantity being treated as 0. -/
theorem C1_total_price_invariant (ops : List Op) :
    getTotalPrice (applyOps ops []) = specTotalPrice (applyOps ops []) :=
  getTotalPrice_eq (applyOps ops [])

lemma findLine_cons (l : CartLine) (c : Cart) (n : Option Str) :
    findLine (l :: c) n = if l.name = n then some l else findLine c n := by
  by_cases h : l.name = n <;> simp [findLine, List.find?, h]

lemma findLine_append_of_none (c d : Cart) (n : Option Str)
    (h : findLine c n = none) : findLine (c ++ d) n = findLine d n := by
  induction c with
  | nil => simp
  | cons l c ih =>
    rw [findLine_cons] at h
    by_cases hl : l.name = n
    · simp [hl] at h
    · rw [List.cons_append, findLine_cons, if_neg hl]
      exact ih (by simpa [hl] using h)

lemma findLine_map_of_name_eq (f : CartLine → CartLine)
    (hf : ∀ l, (f l).name = l.name) (c : Cart) (n : Option Str) :
    findLine (c.map f) n = (findLine c n).map f := by
  induction c with
  | nil => simp [findLine]
  | cons l c ih =>
    rw [List.map_cons, findLine_cons, findLine_cons, hf]
    by_cases hl : l.name = n <;> simp [hl, ih]

lemma findLine_eq_none_iff (c : Cart) (n : Option Str) :
    findLine c n = none ↔ ∀ l ∈ c, l.name ≠ n := by
  simp [findLine, List.find?_eq_none]

lemma findLine_isSome_name (c : Cart) (n : Option Str) (l : CartLine)
    (h : findLine c n = some l) : l.name = n := by
  have := List.find?_some h
  simpa using this

/-- Claim C2: adding an item twice (the second time possibly with a changed
catalog price) merges into one line whose quantity is the sum, exactly as a
single add with the summed quantity; the line's unit price stays the one
resolved at the first add. -/
theorem C2_addToCart_merge (c : Cart) (it it' : MenuItem) (q1 q2 : Int)
    (hname : it'.name = it.name) (hfresh : findLine c it.name = none) :
    (findLine (addToCart (addToCart c (some it) q1) (some it') q2) it.name).map
        CartLine.quantity = some (q1 + q2) ∧
    (findLine (addToCart c (some it) (q1 + q2)) it.name).map
        CartLine.quantity = some (q1 + q2) ∧
    (findLine (addToCart (addToCart c (some it) q1) (some it') q2) it.name).map
        CartLine.price = some (resolveCartPrice it.price) := by
  have hmkname : ∀ q : Int, (mkCartLine it q).name = it.name := fun _ => rfl
  have hfind1 : ∀ q : Int, findLine (c ++ [mkCartLine it q]) it.name
      = some (mkCartLine it q) := by
    intro q
    rw [findLine_append_of_none c _ _ hfresh, findLine_cons, if_pos (hmkname q)]
  have hstep1 : addToCart c (some it) q1 = c ++ [mkCartLine it q1] := by
    simp [addToCart, hfresh]
  have hstep3 : addToCart c (some it) (q1 + q2) = c ++ [mkCartLine it (q1 + q2)] := by
    simp [addToCart, hfresh]
  have hf : ∀ l : CartLine,
      ((fun l : CartLine =>
        if l.name = it'.name then { l with quantity := l.quantity + q2 } else l) l).name
      = l.name := by
    intro l; by_cases h : l.name = it'.name <;> simp [h]
  have hfind1' : findLine (c ++ [mkCartLine it q1]) it'.name = some (mkCartLine it q1) := by
    rw [hname]; exact hfind1 q1
  have hstep2 : addToCart (c ++ [mkCartLine it q1]) (some it') q2
      = (c ++ [mkCartLine it q1]).map (fun l : CartLine =>
          if l.name = it'.name then { l with quantity := l.quantity + q2 } else l) := by
    simp only [addToCart, hfind1']
  have hfval : (fun l : CartLine =>
      if l.name = it'.name then { l with quantity := l.quantity + q2 } else l)
        (mkCartLine it q1) = mkCartLine it (q1 + q2) := by
    simp [mkCartLine, hname]
  have hfinal : findLine (addToCart (addToCart c (some it) q1) (some it') q2) it.name
      = some (mkCartLine it (q1 + q2)) := by
    rw [hstep1, hstep2, findLine_map_of_name_eq _ hf, hfind1 q1]
    simp [hfval]
  refine ⟨?_, ?_, ?_⟩
  · rw [hfinal]; rfl
  · rw [hstep3, hfind1 (q1 + q2)]; rfl
  · rw [hfinal]; rfl

/-- An item of the worked example in the spec: scalar price 45. -/
def koshariItem : MenuItem :=
  { name := some ("Koshari").toList, name_ar := none, description := none,
    description_ar := none, price := .num 45 }

/-- An item of the worked example in the spec: range price [80, 120]. -/
def fattahItem : MenuItem :=
  { name := some ("Fattah").toList, name_ar := none, description := none,
    description_ar := none, price := .arr [80, 120] }

/-- Witness for C2 at a concrete input: adding the range-priced item once
and then again with a replaced scalar price 999 yields quantity 3 and the
originally resolved unit price 80. -/
theorem C2_addToCart_merge_witness :
    (findLine (addToCart (addToCart [] (some fattahItem) 1)
        (some { fattahItem with price := .num 999 }) 2) fattahItem.name).map
        CartLine.quantity = some (1 + 2) ∧
    (findLine (addToCart [] (some fattahItem) (1 + 2)) fattahItem.name).map
        CartLine.quantity = some (1 + 2) ∧
    (findLine (addToCart (addToCart [] (some fattahItem) 1)
        (some { fattahItem with price := .num 999 }) 2) fattahItem.name).map
        CartLine.price = some (resolveCartPrice fattahItem.price) :=
  C2_addToCart_merge [] fattahItem { fattahItem with price := .num 999 } 1 2 rfl rfl

/-- Claim C4: a non-positive new quantity makes `updateQuantity` behave as
`removeFromCart` (in particular for new quantity 0); a positive new quantity
sets the named line's quantity to exactly that value and leaves every other
line unchanged. -/
theorem C4_updateQuantity_semantics (c : Cart) (n : Option Str) (q : Int) :
    (q ≤ 0 → updateQuantity c n q = removeFromCart c n) ∧
    (0 < q →
      findLine (updateQuantity c n q) n
          = (findLine c n).map (fun l => { l with quantity := q }) ∧
      ∀ m, m ≠ n → findLine (updateQuantity c n q) m = findLine c m) := by
  constructor
  · intro h; simp [updateQuantity, h]
  · intro h
    have hq : ¬ q ≤ 0 := by omega
    set f : CartLine → CartLine := fun l =>
      if l.name = n then { l with quantity := q } else l with hfdef
    have hf : ∀ l, (f l).name = l.name := by
      intro l; rw [hfdef]; by_cases hl : l.name = n <;> simp [hl]
    have hupd : updateQuantity c n q = c.map f := by
      simp [updateQuantity, hq, hfdef]
    constructor
    · rw [hupd, findLine_map_of_name_eq f hf]
      cases hfl : findLine c n with
      | none => rfl
      | some l =>
        have hln : l.name = n := findLine_isSome_name c n l hfl
        simp [hfdef, hln]
    · intro m hm
      rw [hupd, findLine_map_of_name_eq f hf]
      cases hfl : findLine c m with
      | none => rfl
      | some l =>
        have hln : l.name = m := findLine_isSome_name c m l hfl
        have : l.name ≠ n := by rw [hln]; exact hm
        simp [hfdef, this]

/-- Witness for C4 at a concrete input: on a one-line cart, update to 0
equals removal, and update to 5 sets the quantity to exactly 5. -/
theorem C4_updateQuantity_semantics_witness :
    updateQuantity [mkCartLine koshariItem 2] koshariItem.name 0
        = removeFromCart [mkCartLine koshariItem 2] koshariItem.name ∧
    findLine (updateQuantity [mkCartLine koshariItem 2] koshariItem.name 5)
        koshariItem.name
      = (findLine [mkCartLine koshariItem 2] koshariItem.name).map
          (fun l => { l with quantity := 5 }) :=
  ⟨(C4_updateQuantity_semantics [mkCartLine koshariItem 2] koshariItem.name 0).1
      (by decide),
   ((C4_updateQuantity_semantics [mkCartLine koshariItem 2] koshariItem.name 5).2
      (by decide)).1⟩

/-- The names of the cart's lines, in order. -/
def namesOf (c : Cart) : List (Option Str) := c.map CartLine.name

/-- The cart invariant of the spec: lines unique by name, and no line with
quantity `≤ 0`. -/
def CartInv (c : Cart) : Prop :=
  (namesOf c).Nodup ∧ ∀ l ∈ c, 0 < l.quantity

/-- An operation whose added quantity is positive (`addToCart` is the only
operation that can carry a non-positive quantity into a line unchecked). -/
def addPos : Op → Bool
  | .add _ q => decide (0 < q)
  | _ => true

lemma namesOf_map_of_name_eq (f : CartLine → CartLine)
    (hf : ∀ l, (f l).name = l.name) (c : Cart) :
    namesOf (c.map f) = namesOf c := by
  induction c with
  | nil => rfl
  | cons l c ih =>
    show (f l).name :: namesOf (c.map f) = l.name :: namesOf c
    rw [hf, ih]

lemma cartInv_map (c : Cart) (f : CartLine → CartLine)
    (hf : ∀ l, (f l).name = l.name) (hq : ∀ l ∈ c, 0 < l.quantity → 0 < (f l).quantity)
    (h : CartInv c) : CartInv (c.map f) := by
  refine ⟨by rw [namesOf_map_of_name_eq f hf]; exact h.1, ?_⟩
  intro l hl
  rw [List.mem_map] at hl
  obtain ⟨l0, hl0, rfl⟩ := hl
  exact hq l0 hl0 (h.2 l0 hl0)

lemma cartInv_filter (c : Cart) (p : CartLine → Bool) (h : CartInv c) :
    CartInv (c.filter p) := by
  refine ⟨?_, ?_⟩
  · exact List.Nodup.sublist (List.Sublist.map CartLine.name (List.filter_sublist c)) h.1
  · intro l hl
    exact h.2 l (List.mem_of_mem_filter hl)

lemma cartInv_applyOp (c : Cart) (op : Op) (h : CartInv c)
    (hop : addPos op = true) : CartInv (applyOp c op) := by
  cases op with
  | add item q =>
    cases item with
    | none => exact h
    | some it =>
      have hq : 0 < q := by simpa [addPos] using hop
      rw [applyOp, addToCart]
      cases hfl : findLine c it.name with
      | some l =>
        refine cartInv_map c _ ?_ ?_ h
        · intro l0
          by_cases hn : l0.name = it.name
          · simp [hn]
          · simp [hn]
        · intro l0 _ hq0
          by_cases hn : l0.name = it.name
          · simp [hn]; omega
          · simp [hn]; exact hq0
      | none =>
        have hnotin : it.name ∉ namesOf c := by
          rw [findLine_eq_none_iff] at hfl
          intro hmem
          rw [namesOf, List.mem_map] at hmem
          obtain ⟨l0, hl0, hn⟩ := hmem
          exact hfl l0 hl0 hn
        refine ⟨?_, ?_⟩
        · rw [namesOf, List.map_append]
          simp only [List.map_cons, List.map_nil]
          rw [List.nodup_append]
          exact ⟨h.1, List.nodup_singleton _, by simpa [namesOf] using hnotin⟩
        · intro l hl
          rw [List.mem_append] at hl
          cases hl with
          | inl hl => exact h.2 l hl
          | inr hl =>
            rw [List.mem_singleton] at hl
            subst hl
            exact hq
  | update n q =>
    rw [applyOp, updateQuantity]
    by_cases hq : q ≤ 0
    · rw [if_pos hq]; exact cartInv_filter c _ h
    · rw [if_neg hq]
      refine cartInv_map c _ ?_ ?_ h
      · intro l0
        by_cases hn : l0.name = n
        · simp [hn]
        · simp [hn]
      · intro l0 _ hq0
        by_cases hn : l0.name = n
        · simp [hn]; omega
        · simp [hn]; exact hq0
  | remove n => exact cartInv_filter c _ h
  | clear => exact ⟨List.nodup_nil, fun l hl => absurd hl (List.not_mem_nil l)⟩

lemma cartInv_applyOps (ops : List Op) :
    ∀ c : Cart, CartInv c → (∀ op ∈ ops, addPos op = true) → CartInv (applyOps ops c) := by
  induction ops with
  | nil => intro c h _; exact h
  | cons op ops ih =>
    intro c h hops
    rw [applyOps, List.foldl_cons]
    exact ih (applyOp c op) (cartInv_applyOp c op h (hops op (List.mem_cons_self op ops)))
      (fun o ho => hops o (List.mem_cons_of_mem op ho))

/-- Counterexample to claim C3 as stated: with truly arbitrary arguments the
invariant fails, since `addToCart` with quantity 0 creates a line whose
quantity is 0. -/
theorem C3_counterexample :
    ¬ ∀ ops : List Op, CartInv (applyOps ops []) := by
  intro h
  have h2 := (h [Op.add (some koshariItem) 0]).2 (mkCartLine koshariItem 0) (by decide)
  exact absurd h2 (by decide)

/-- Claim C3 (amended): in every cart state reachable from the empty cart by
a sequence of operations in which every `addToCart` carries a positive
quantity (as every call site of the page does), cart lines are unique by
name and no line has quantity `≤ 0`. -/
theorem C3_cart_invariant (ops : List Op) (h : ∀ op ∈ ops, addPos op = true) :
    CartInv (applyOps ops []) :=
  cartInv_applyOps ops [] ⟨List.nodup_nil, by simp⟩ h

/-- A concrete sequence of operations exercising every operation kind. -/
def demoOps : List Op :=
  [Op.add (some koshariItem) 1, Op.add (some fattahItem) 2,
   Op.update (some (("Koshari").toList)) 5, Op.remove (some (("Fattah").toList)),
   Op.add (some fattahItem) 1]

/-- Witness for the amended C3 at a concrete operation sequence. -/
theorem C3_cart_invariant_witness : CartInv (applyOps demoOps []) :=
  C3_cart_invariant demoOps (by decide)

/-! ### The filter / sort engine -/

/-- Stable insertion step wrt a strict Bool comparison on sort keys:
the new element is placed before the first element whose key is not
strictly below its own.  This realises what a stable comparator sort
(`Array.prototype.sort`, required stable by the language spec) does with
the page's numeric comparators. -/
def insertK {α κ : Type} (lt : κ → κ → Bool) (key : α → κ) (x : α) :
    List α → List α
  | [] => [x]
  | y :: ys => if lt (key y) (key x) then y :: insertK lt key x ys else x :: y :: ys

/-- Stable sort by key wrt a strict Bool comparison. -/
def sortK {α κ : Type} (lt : κ → κ → Bool) (key : α → κ) : List α → List α
  | [] => []
  | x :: xs => insertK lt key x (sortK lt key xs)

lemma insertK_perm {α κ : Type} (lt : κ → κ → Bool) (key : α → κ) (x : α)
    (l : List α) : List.Perm (insertK lt key x l) (x :: l) := by
  induction l with
  | nil => exact List.Perm.refl _
  | cons y ys ih =>
    rw [insertK]
    by_cases h : lt (key y) (key x) = true
    · rw [if_pos h]
      exact List.Perm.trans (List.Perm.cons y ih) (List.Perm.swap x y ys)
    · rw [if_neg h]

lemma sortK_perm {α κ : Type} (lt : κ → κ → Bool) (key : α → κ) (l : List α) :
    List.Perm (sortK lt key l) l := by
  induction l with
  | nil => exact List.Perm.refl _
  | cons x xs ih =>
    exact List.Perm.trans (insertK_perm lt key x (sortK lt key xs)) (List.Perm.cons x ih)

lemma insertK_pairwise {α κ : Type} (lt : κ → κ → Bool) (key : α → κ)
    (hasymm : ∀ a b, lt a b = true → lt b a = false)
    (hnegtrans : ∀ a b c, lt b a = false → lt c b = false → lt c a = false)
    (x : α) (l : List α) (h : l.Pairwise (fun a b => lt (key b) (key a) = false)) :
    (insertK lt key x l).Pairwise (fun a b => lt (key b) (key a) = false) := by
  induction l with
  | nil => exact List.pairwise_singleton _ x
  | cons y ys ih =>
    rw [List.pairwise_cons] at h
    rw [insertK]
    by_cases hlt : lt (key y) (key x) = true
    · rw [if_pos hlt]
      rw [List.pairwise_cons]
      refine ⟨?_, ih h.2⟩
      intro z hz
      have hz' : z = x ∨ z ∈ ys :=
        (List.mem_cons).1 ((insertK_perm lt key x ys).mem_iff.1 hz)
      cases hz' with
      | inl hzx => subst hzx; exact hasymm _ _ hlt
      | inr hzys => exact h.1 z hzys
    · rw [if_neg hlt]
      rw [Bool.not_eq_true] at hlt
      rw [List.pairwise_cons]
      refine ⟨?_, List.pairwise_cons.2 h⟩
      intro z hz
      have hz' : z = y ∨ z ∈ ys := (List.mem_cons).1 hz
      cases hz' with
      | inl hzy => subst hzy; exact hlt
      | inr hzys => exact hnegtrans _ _ _ hlt (h.1 z hzys)

lemma sortK_pairwise {α κ : Type} (lt : κ → κ → Bool) (key : α → κ)
    (hasymm : ∀ a b, lt a b = true → lt b a = false)
    (hnegtrans : ∀ a b c, lt b a = false → lt c b = false → lt c a = false)
    (l : List α) :
    (sortK lt key l).Pairwise (fun a b => lt (key b) (key a) = false) := by
  induction l with
  | nil => exact List.Pairwise.nil
  | cons x xs ih => exact insertK_pairwise lt key hasymm hnegtrans x (sortK lt key xs) ih

lemma insertK_filter_of_ne {α κ : Type} [DecidableEq κ] (lt : κ → κ → Bool)
    (key : α → κ) (x : α) (l : List α) (k : κ) (h : key x ≠ k) :
    (insertK lt key x l).filter (fun a => decide (key a = k))
      = l.filter (fun a => decide (key a = k)) := by
  induction l with
  | nil => simp [insertK, h]
  | cons y ys ih =>
    rw [insertK]
    by_cases hlt : lt (key y) (key x) = true
    · rw [if_pos hlt]
      by_cases hy : key y = k
      · simp only [List.filter_cons, hy]
        simp [ih]
      · simp only [List.filter_cons]
        simp [hy, ih]
    · rw [if_neg hlt]
      simp only [List.filter_cons]
      simp [h]

lemma insertK_filter_of_eq {α κ : Type} [DecidableEq κ] (lt : κ → κ → Bool)
    (key : α → κ) (hirr : ∀ a, lt a a = false) (x : α) (l : List α) (k : κ)
    (h : key x = k) :
    (insertK lt key x l).filter (fun a => decide (key a = k))
      = x :: l.filter (fun a => decide (key a = k)) := by
  induction l with
  | nil => simp [insertK, h]
  | cons y ys ih =>
    rw [insertK]
    by_cases hlt : lt (key y) (key x) = true
    · rw [if_pos hlt]
      have hy : key y ≠ k := by
        intro hy
        rw [h] at hlt
        rw [hy] at hlt
        rw [hirr k] at hlt
        exact Bool.false_ne_true hlt
      simp only [List.filter_cons]
      simp [hy, ih]
    · rw [if_neg hlt]
      simp only [List.filter_cons]
      simp [h]

lemma sortK_filter {α κ : Type} [DecidableEq κ] (lt : κ → κ → Bool)
    (key : α → κ) (hirr : ∀ a, lt a a = false) (l : List α) (k : κ) :
    (sortK lt key l).filter (fun a => decide (key a = k))
      = l.filter (fun a => decide (key a = k)) := by
  induction l with
  | nil => rfl
  | cons x xs ih =>
    rw [sortK]
    by_cases hx : key x = k
    · rw [insertK_filter_of_eq lt key hirr x _ k hx, ih]
      simp [List.filter_cons, hx]
    · rw [insertK_filter_of_ne lt key x _ k hx, ih]
      simp [List.filter_cons, hx]

/-- `ps.foldl min p`: `Math.min(...price)` over the non-empty array
`p :: ps`. -/
def listMin (p : Int) (ps : List Int) : Int := ps.foldl min p

/-- `ps.foldl max p`: `Math.max(...price)` over the non-empty array
`p :: ps`. -/
def listMax (p : Int) (ps : List Int) : Int := ps.foldl max p

/-- The low-to-high sort key
`Array.isArray(a.price) ? Math.min(...a.price) : (a.price || 0)`.
`Math.min()` of an empty spread is `Infinity`, modelled as `⊤`. -/
def minKey (item : MenuItem) : WithTop Int :=
  match item.price with
  | .arr [] => ⊤
  | .arr (p :: ps) => ((listMin p ps : Int) : WithTop Int)
  | .num n => ((n : Int) : WithTop Int)
  | .missing => ((0 : Int) : WithTop Int)

/-- The high-to-low sort key
`Array.isArray(a.price) ? Math.max(...a.price) : (a.price || 0)`.
`Math.max()` of an empty spread is `-Infinity`, modelled as `⊥`. -/
def maxKey (item : MenuItem) : WithBot Int :=
  match item.price with
  | .arr [] => ⊥
  | .arr (p :: ps) => ((listMax p ps : Int) : WithBot Int)
  | .num n => ((n : Int) : WithBot Int)
  | .missing => ((0 : Int) : WithBot Int)

/-- Sign of the ascending comparator `priceA - priceB` as a strict Bool
order (negative result, i.e. first key strictly below second). -/
def ltAsc (p q : WithTop Int) : Bool := decide (p < q)

/-- Sign of the descending comparator `priceB - priceA` as a strict Bool
order (first key strictly above second). -/
def ltDesc (p q : WithBot Int) : Bool := decide (q < p)

/-- The page's search predicate: primary-language name and description are
matched case-insensitively against the lower-cased query, the Arabic
fields case-sensitively against the raw query; absent (and, for the
truthiness-guarded fields, empty) fields never match. -/
def matchesQuery (searchQuery : Str) (item : MenuItem) : Bool :=
  let query := toLowerStr searchQuery
  (match item.name with
   | some nm => includesStr (toLowerStr nm) query
   | none => false) ||
  (match item.name_ar with
   | some s => !s.isEmpty && includesStr s searchQuery
   | none => false) ||
  (match item.description with
   | some s => !s.isEmpty && includesStr (toLowerStr s) query
   | none => false) ||
  (match item.description_ar with
   | some s => !s.isEmpty && includesStr s searchQuery
   | none => false)

/-- The price-sort mode of the UI selection state. -/
inductive SortMode where
  | default | lowHigh | highLow
  deriving DecidableEq, Repr

/-- The guard-and-filter part of `getFilteredAndSortedItems()`: the early
`return []` for a missing category or missing item list, the copy of the
item list, and the query filter. -/
def filteredItems (menuData : Catalog) (selectedCategory searchQuery : Str) :
    List MenuItem :=
  match lookupCategory menuData selectedCategory with
  | none => []
  | some categoryData =>
    match categoryData.items with
    | none => []
    | some items0 =>
      if searchQuery.isEmpty then items0
      else items0.filter (matchesQuery searchQuery)

/-- `getFilteredAndSortedItems()`: look the selected category up, copy its
item list, filter it when the query is non-empty, then sort it according to
the price-sort mode.  In the source the missing-category guard returns `[]`
before the sort is reached; sorting the empty list is the empty list, so
the guard is factored into `filteredItems`. -/
def getFilteredAndSortedItems (menuData : Catalog) (selectedCategory : Str)
    (searchQuery : Str) (priceSort : SortMode) : List MenuItem :=
  let items1 := filteredItems menuData selectedCategory searchQuery
  match priceSort with
  | .default => items1
  | .lowHigh => sortK ltAsc minKey items1
  | .highLow => sortK ltDesc maxKey items1

/-- The item list of the selected category as stored in the catalog. -/
def catalogItems (menuData : Catalog) (selectedCategory : Str) : List MenuItem :=
  ((lookupCategory menuData selectedCategory).bind (fun cd => cd.items)).getD []

lemma filteredItems_sublist (menuData : Catalog) (sel query : Str) :
    (filteredItems menuData sel query).Sublist (catalogItems menuData sel) := by
  unfold filteredItems catalogItems
  cases lookupCategory menuData sel with
  | none => exact List.Sublist.refl []
  | some cd =>
    show List.Sublist
      (match cd.items with
       | none => []
       | some items0 =>
         if query.isEmpty then items0 else items0.filter (matchesQuery query))
      (cd.items.getD [])
    cases cd.items with
    | none => exact List.Sublist.refl []
    | some items0 =>
      by_cases hq : query.isEmpty
      · simp only [hq, if_true, Option.getD_some]
        exact List.Sublist.refl items0
      · simp only [hq, if_false, Option.getD_some]
        exact List.filter_sublist items0

lemma ltAsc_asymm : ∀ a b, ltAsc a b = true → ltAsc b a = false := by
  intro a b h
  rw [ltAsc, decide_eq_true_iff] at h
  rw [ltAsc, decide_eq_false_iff_not]
  exact lt_asymm h

lemma ltAsc_negtrans : ∀ a b c, ltAsc b a = false → ltAsc c b = false →
    ltAsc c a = false := by
  intro a b c h1 h2
  rw [ltAsc, decide_eq_false_iff_not, not_lt] at h1 h2
  rw [ltAsc, decide_eq_false_iff_not, not_lt]
  exact le_trans h1 h2

lemma ltAsc_irr : ∀ a, ltAsc a a = false := by
  intro a
  rw [ltAsc, decide_eq_false_iff_not]
  exact lt_irrefl a

lemma ltDesc_asymm : ∀ a b, ltDesc a b = true → ltDesc b a = false := by
  intro a b h
  rw [ltDesc, decide_eq_true_iff] at h
  rw [ltDesc, decide_eq_false_iff_not]
  exact lt_asymm h

lemma ltDesc_negtrans : ∀ a b c, ltDesc b a = false → ltDesc c b = false →
    ltDesc c a = false := by
  intro a b c h1 h2
  rw [ltDesc, decide_eq_false_iff_not, not_lt] at h1 h2
  rw [ltDesc, decide_eq_false_iff_not, not_lt]
  exact le_trans h2 h1

lemma ltDesc_irr : ∀ a, ltDesc a a = false := by
  intro a
  rw [ltDesc, decide_eq_false_iff_not]
  exact lt_irrefl a

/-- Claim C5: `low-high` returns a permutation of the filtered list that is
ascending in the minimum-of-range key and stable (for every key value, the
sublist of items with that key is exactly the one of the catalog-ordered
filtered list); `high-low` is the same with the maximum-of-range key,
descending; `default` preserves catalog order (its output is an
order-preserving sublist of the category's item list). -/
theorem C5_sort_semantics (menuData : Catalog) (sel query : Str) :
    (getFilteredAndSortedItems menuData sel query .default).Sublist
        (catalogItems menuData sel) ∧
    List.Perm (getFilteredAndSortedItems menuData sel query .lowHigh)
        (getFilteredAndSortedItems menuData sel query .default) ∧
    (getFilteredAndSortedItems menuData sel query .lowHigh).Pairwise
        (fun a b => minKey a ≤ minKey b) ∧
    (∀ k : WithTop Int,
      (getFilteredAndSortedItems menuData sel query .lowHigh).filter
          (fun i => decide (minKey i = k))
        = (getFilteredAndSortedItems menuData sel query .default).filter
            (fun i => decide (minKey i = k))) ∧
    List.Perm (getFilteredAndSortedItems menuData sel query .highLow)
        (getFilteredAndSortedItems menuData sel query .default) ∧
    (getFilteredAndSortedItems menuData sel query .highLow).Pairwise
        (fun a b => maxKey b ≤ maxKey a) ∧
    (∀ k : WithBot Int,
      (getFilteredAndSortedItems menuData sel query .highLow).filter
          (fun i => decide (maxKey i = k))
        = (getFilteredAndSortedItems menuData sel query .default).filter
            (fun i => decide (maxKey i = k))) := by
  have hbase : getFilteredAndSortedItems menuData sel query .default
      = filteredItems menuData sel query := rfl
  have hlow : getFilteredAndSortedItems menuData sel query .lowHigh
      = sortK ltAsc minKey (filteredItems menuData sel query) := rfl
  have hhigh : getFilteredAndSortedItems menuData sel query .highLow
      = sortK ltDesc maxKey (filteredItems menuData sel query) := rfl
  refine ⟨?_, ?_, ?_, ?_, ?_, ?_, ?_⟩
  · rw [hbase]; exact filteredItems_sublist menuData sel query
  · rw [hbase, hlow]; exact sortK_perm ltAsc minKey _
  · rw [hlow]
    have h := sortK_pairwise ltAsc minKey ltAsc_asymm ltAsc_negtrans
      (filteredItems menuData sel query)
    refine List.Pairwise.imp ?_ h
    intro a b hab
    rw [ltAsc, decide_eq_false_iff_not, not_lt] at hab
    exact hab
  · intro k
    rw [hbase, hlow]
    exact sortK_filter ltAsc minKey ltAsc_irr _ k
  · rw [hbase, hhigh]; exact sortK_perm ltDesc maxKey _
  · rw [hhigh]
    have h := sortK_pairwise ltDesc maxKey ltDesc_asymm ltDesc_negtrans
      (filteredItems menuData sel query)
    refine List.Pairwise.imp ?_ h
    intro a b hab
    rw [ltDesc, decide_eq_false_iff_not, not_lt] at hab
    exact hab
  · intro k
    rw [hbase, hhigh]
    exact sortK_filter ltDesc maxKey ltDesc_irr _ k

/-- Case-insensitive containment of the query in an optional field, as the
spec words it ("contains the query as a case-insensitive substring"). -/
def ciContains (field : Option Str) (query : Str) : Bool :=
  match field with
  | some s => decide (toLowerStr query <:+: toLowerStr s)
  | none => false

/-- Case-sensitive containment of the query in an optional field, as the
spec words it for the localized fields. -/
def csContains (field : Option Str) (query : Str) : Bool :=
  match field with
  | some s => decide (query <:+: s)
  | none => false

/-- The search predicate as the spec words it: primary-language name or
description contains the query case-insensitively, or localized name or
description contains it case-sensitively. -/
def specMatches (query : Str) (item : MenuItem) : Bool :=
  ciContains item.name query || csContains item.name_ar query ||
  ciContains item.description query || csContains item.description_ar query

lemma not_infix_nil {s : Str} (hs : s ≠ []) : ¬ (s <:+: ([] : Str)) := by
  intro h
  exact hs (List.sublist_nil.mp (List.IsInfix.sublist h))

lemma toLowerStr_ne_nil {s : Str} (hs : s ≠ []) : toLowerStr s ≠ [] := by
  intro h
  exact hs (List.map_eq_nil_iff.mp h)

lemma truthy_and_contains (query : Str) (hq : query ≠ []) (s : Str) :
    (!s.isEmpty && decide (query <:+: s)) = decide (query <:+: s) := by
  cases s with
  | nil =>
    have : decide (query <:+: ([] : Str)) = false :=
      decide_eq_false (not_infix_nil hq)
    rw [this]
    rfl
  | cons c cs => rfl

lemma truthy_and_contains_lower (query : Str) (hq : query ≠ []) (s : Str) :
    (!s.isEmpty && decide (toLowerStr query <:+: toLowerStr s))
      = decide (toLowerStr query <:+: toLowerStr s) := by
  cases s with
  | nil =>
    have : decide (toLowerStr query <:+: toLowerStr ([] : Str)) = false :=
      decide_eq_false (not_infix_nil (toLowerStr_ne_nil hq))
    rw [this]
    rfl
  | cons c cs => rfl

lemma matches_eq_spec (query : Str) (hq : query ≠ []) (item : MenuItem) :
    matchesQuery query item = specMatches query item := by
  obtain ⟨nm, na, d, da, pr⟩ := item
  cases nm <;> cases na <;> cases d <;> cases da <;>
    simp [matchesQuery, specMatches, ciContains, csContains, includesStr,
      truthy_and_contains query hq, truthy_and_contains_lower query hq]

lemma filteredItems_eq_spec_filter (menuData : Catalog) (sel query : Str)
    (hq : query ≠ []) :
    filteredItems menuData sel query
      = (catalogItems menuData sel).filter (specMatches query) := by
  unfold filteredItems catalogItems
  cases lookupCategory menuData sel with
  | none => rfl
  | some cd =>
    show (match cd.items with
          | none => []
          | some items0 =>
            if query.isEmpty then items0 else items0.filter (matchesQuery query))
        = (cd.items.getD []).filter (specMatches query)
    cases hcd : cd.items with
    | none => rfl
    | some items0 =>
      have hqe : ¬ (query.isEmpty = true) := by
        cases query with
        | nil => exact absurd rfl hq
        | cons c cs => exact Bool.false_ne_true
      show (if query.isEmpty then items0 else items0.filter (matchesQuery query))
          = ((some items0).getD ([] : List MenuItem)).filter (specMatches query)
      rw [if_neg hqe]
      exact List.filter_congr (fun i _ => matches_eq_spec query hq i)

/-- Claim C6: for a non-empty query the `default`-mode output keeps exactly
the catalog items matched by the spec's search predicate; in particular a
query matched by no item yields the empty list, and any item whose only
matching field is its localized description is kept. -/
theorem C6_search_filter (menuData : Catalog) (sel query : Str)
    (hq : query ≠ []) :
    getFilteredAndSortedItems menuData sel query .default
        = (catalogItems menuData sel).filter (specMatches query) ∧
    ((∀ i ∈ catalogItems menuData sel, specMatches query i = false) →
      getFilteredAndSortedItems menuData sel query .default = []) ∧
    (∀ i ∈ catalogItems menuData sel, specMatches query i = true →
      i ∈ getFilteredAndSortedItems menuData sel query .default) := by
  have hmain : getFilteredAndSortedItems menuData sel query .default
      = (catalogItems menuData sel).filter (specMatches query) :=
    filteredItems_eq_spec_filter menuData sel query hq
  refine ⟨hmain, ?_, ?_⟩
  · intro hall
    rw [hmain]
    rw [List.filter_eq_nil_iff]
    intro a ha
    rw [hall a ha]
    exact Bool.false_ne_true
  · intro i hi hmatch
    rw [hmain, List.mem_filter]
    exact ⟨hi, hmatch⟩

/-- A two-item demo catalog with one category. -/
def demoCatalog : Catalog :=
  [(("mains").toList,
    { name := some (("Mains").toList), name_ar := none, heroImage := none,
      items := some [koshariItem, fattahItem] })]

/-- Witness for C6 at a concrete input: the query "shari" (a substring of
"Koshari" up to case) keeps exactly the matching item. -/
theorem C6_search_filter_witness :
    getFilteredAndSortedItems demoCatalog (("mains").toList) (("shari").toList)
        .default
      = (catalogItems demoCatalog (("mains").toList)).filter
          (specMatches (("shari").toList)) ∧
    ((∀ i ∈ catalogItems demoCatalog (("mains").toList),
        specMatches (("shari").toList) i = false) →
      getFilteredAndSortedItems demoCatalog (("mains").toList) (("shari").toList)
          .default = []) ∧
    (∀ i ∈ catalogItems demoCatalog (("mains").toList),
      specMatches (("shari").toList) i = true →
      i ∈ getFilteredAndSortedItems demoCatalog (("mains").toList)
            (("shari").toList) .default) :=
  C6_search_filter demoCatalog (("mains").toList) (("shari").toList) (by decide)

/-! ### Number rendering and the two `formatPrice` variants -/

/-- The decimal digit character for a digit value `0..9`. -/
def digitChar (d : Nat) : Char :=
  match d with
  | 0 => Char.ofNat 48
  | 1 => Char.ofNat 49
  | 2 => Char.ofNat 50
  | 3 => Char.ofNat 51
  | 4 => Char.ofNat 52
  | 5 => Char.ofNat 53
  | 6 => Char.ofNat 54
  | 7 => Char.ofNat 55
  | 8 => Char.ofNat 56
  | _ => Char.ofNat 57

/-- The plain decimal digit string of a natural number. -/
def natDigits (n : Nat) : Str :=
  if n < 10 then [digitChar n]
  else natDigits (n / 10) ++ [digitChar (n % 10)]
decreasing_by exact Nat.div_lt_self (by omega) (by omega)

/-- Grouping pass over a reversed digit string: a comma after every third
digit, counted from the right of the original string. -/
def groupRev (ds : Str) : Str :=
  if ds.length ≤ 3 then ds
  else ds.take 3 ++ Char.ofNat 44 :: groupRev (ds.drop 3)
termination_by ds.length
decreasing_by simp only [List.length_drop]; omega

/-- `Number.prototype.toLocaleString` grouping: thousands separators every
three digits. -/
def groupThousands (ds : Str) : Str := (groupRev ds.reverse).reverse

/-- `n.toLocaleString()` for an integer value. -/
def toLocaleStringInt (n : Int) : Str :=
  if n < 0 then Char.ofNat 45 :: groupThousands (natDigits n.natAbs)
  else groupThousands (natDigits n.natAbs)

/-- Plain template-literal rendering of an integer value. -/
def intToStr (n : Int) : Str :=
  if n < 0 then Char.ofNat 45 :: natDigits n.natAbs
  else natDigits n.natAbs

/-- The active language of the page. -/
inductive Lang where
  | en | ar
  deriving DecidableEq, Repr

/-- `formatPrice` as defined at the top of the first page variant: the
missing/empty branches render a zero amount, numbers are locale-formatted
with thousands separators. -/
def formatPrice (price : PriceVal) (language : Lang) : Str :=
  match price with
  | .missing =>
    if language = .en then ("EGP 0").toList else ("ج.م 0").toList
  | .arr [] =>
    if language = .en then ("EGP 0").toList else ("ج.م 0").toList
  | .arr (p :: ps) =>
    let minPrice := listMin p ps
    let maxPrice := listMax p ps
    if minPrice = maxPrice then ("EGP ").toList ++ toLocaleStringInt minPrice
    else if language = .en then
      ("EGP ").toList ++ toLocaleStringInt minPrice ++ (" - ").toList
        ++ toLocaleStringInt maxPrice
    else
      ("ج.م ").toList ++ toLocaleStringInt minPrice ++ (" - ").toList
        ++ toLocaleStringInt maxPrice
  | .num n => ("EGP ").toList ++ toLocaleStringInt n

/-- `formatPrice` as defined in the second page variant: the missing/empty
branches render a localized "price on request" text, numbers are rendered
raw (no separators). -/
def formatPriceV2 (price : PriceVal) (language : Lang) : Str :=
  match price with
  | .missing =>
    if language = .en then ("Price on request").toList
    else ("السعر عند الطلب").toList
  | .arr [] =>
    if language = .en then ("Price on request").toList
    else ("السعر عند الطلب").toList
  | .arr (p :: ps) =>
    let minPrice := listMin p ps
    let maxPrice := listMax p ps
    if minPrice = maxPrice then ("EGP ").toList ++ intToStr minPrice
    else if language = .en then
      ("EGP ").toList ++ intToStr minPrice ++ (" - ").toList ++ intToStr maxPrice
    else
      ("ج.م ").toList ++ intToStr minPrice ++ (" - ").toList ++ intToStr maxPrice
  | .num n => ("EGP ").toList ++ intToStr n

lemma listMin_pair (a b : Int) : listMin a [b] = min a b := rfl

lemma listMax_pair (a b : Int) : listMax a [b] = max a b := rfl

/-- Claim C8: for a range `[a, b]` with `a < b` both variants render the
localized "min - max" string, which contains the rendered `a` and the
rendered `b`; for equal bounds `[a, a]` both variants collapse to a single
value. -/
theorem C8_formatPrice_range (a b : Int) (lang : Lang) :
    (a < b →
      formatPrice (.arr [a, b]) lang
          = (if lang = .en then ("EGP ").toList else ("ج.م ").toList)
            ++ toLocaleStringInt a ++ (" - ").toList ++ toLocaleStringInt b ∧
      toLocaleStringInt a <:+: formatPrice (.arr [a, b]) lang ∧
      toLocaleStringInt b <:+: formatPrice (.arr [a, b]) lang ∧
      formatPriceV2 (.arr [a, b]) lang
          = (if lang = .en then ("EGP ").toList else ("ج.م ").toList)
            ++ intToStr a ++ (" - ").toList ++ intToStr b ∧
      intToStr a <:+: formatPriceV2 (.arr [a, b]) lang ∧
      intToStr b <:+: formatPriceV2 (.arr [a, b]) lang) ∧
    (formatPrice (.arr [a, a]) lang = ("EGP ").toList ++ toLocaleStringInt a ∧
     formatPriceV2 (.arr [a, a]) lang = ("EGP ").toList ++ intToStr a) := by
  constructor
  · intro hab
    have hmin : listMin a [b] = a := by rw [listMin_pair]; exact min_eq_left hab.le
    have hmax : listMax a [b] = b := by rw [listMax_pair]; exact max_eq_right hab.le
    have hne : listMin a [b] ≠ listMax a [b] := by rw [hmin, hmax]; exact hab.ne
    have h1 : formatPrice (.arr [a, b]) lang
        = (if lang = .en then ("EGP ").toList else ("ج.م ").toList)
          ++ toLocaleStringInt a ++ (" - ").toList ++ toLocaleStringInt b := by
      cases lang <;> simp [formatPrice, hmin, hmax, hne, hab.ne]
    have h2 : formatPriceV2 (.arr [a, b]) lang
        = (if lang = .en then ("EGP ").toList else ("ج.م ").toList)
          ++ intToStr a ++ (" - ").toList ++ intToStr b := by
      cases lang <;> simp [formatPriceV2, hmin, hmax, hne, hab.ne]
    refine ⟨h1, ?_, ?_, h2, ?_, ?_⟩
    · rw [h1]
      exact ⟨(if lang = .en then ("EGP ").toList else ("ج.م ").toList),
        (" - ").toList ++ toLocaleStringInt b, by simp⟩
    · rw [h1]
      exact ⟨(if lang = .en then ("EGP ").toList else ("ج.م ").toList)
        ++ toLocaleStringInt a ++ (" - ").toList, [], by simp⟩
    · rw [h2]
      exact ⟨(if lang = .en then ("EGP ").toList else ("ج.م ").toList),
        (" - ").toList ++ intToStr b, by simp⟩
    · rw [h2]
      exact ⟨(if lang = .en then ("EGP ").toList else ("ج.م ").toList)
        ++ intToStr a ++ (" - ").toList, [], by simp⟩
  · have hmm : listMin a [a] = listMax a [a] := by
      rw [listMin_pair, listMax_pair, min_self, max_self]
    constructor
    · simp [formatPrice, hmm, listMax_pair, max_self]
    · simp [formatPriceV2, hmm, listMax_pair, max_self]

/-- Witness for C8 at the spec's example range [80, 120] in English. -/
theorem C8_formatPrice_range_witness :
    formatPrice (.arr [(80 : Int), 120]) .en
        = (if Lang.en = Lang.en then ("EGP ").toList else ("ج.م ").toList)
          ++ toLocaleStringInt 80 ++ (" - ").toList ++ toLocaleStringInt 120 ∧
    toLocaleStringInt 80 <:+: formatPrice (.arr [(80 : Int), 120]) .en ∧
    toLocaleStringInt 120 <:+: formatPrice (.arr [(80 : Int), 120]) .en ∧
    formatPriceV2 (.arr [(80 : Int), 120]) .en
        = (if Lang.en = Lang.en then ("EGP ").toList else ("ج.م ").toList)
          ++ intToStr 80 ++ (" - ").toList ++ intToStr 120 ∧
    intToStr 80 <:+: formatPriceV2 (.arr [(80 : Int), 120]) .en ∧
    intToStr 120 <:+: formatPriceV2 (.arr [(80 : Int), 120]) .en :=
  (C8_formatPrice_range 80 120 .en).1 (by decide)

lemma digitChar_range (d : Nat) :
    48 ≤ (digitChar d).toNat ∧ (digitChar d).toNat ≤ 57 := by
  unfold digitChar
  split <;> decide

lemma natDigits_mem (n : Nat) :
    ∀ c ∈ natDigits n, 48 ≤ c.toNat ∧ c.toNat ≤ 57 := by
  induction n using Nat.strong_induction_on with
  | _ n ih =>
    rw [natDigits]
    by_cases h : n < 10
    · rw [if_pos h]
      intro c hc
      rw [List.mem_singleton] at hc
      subst hc
      exact digitChar_range n
    · rw [if_neg h]
      intro c hc
      rw [List.mem_append] at hc
      cases hc with
      | inl hc => exact ih (n / 10) (Nat.div_lt_self (by omega) (by omega)) c hc
      | inr hc =>
        rw [List.mem_singleton] at hc
        subst hc
        exact digitChar_range (n % 10)

lemma groupRev_mem_aux (fuel : Nat) :
    ∀ ds : Str, ds.length ≤ fuel →
      ∀ c ∈ groupRev ds, c ∈ ds ∨ c = Char.ofNat 44 := by
  induction fuel with
  | zero =>
    intro ds hds c hc
    have hnil : ds = [] := List.length_eq_zero.mp (Nat.le_zero.mp hds)
    subst hnil
    rw [groupRev] at hc
    simp at hc
  | succ m ih =>
    intro ds hds c hc
    rw [groupRev] at hc
    by_cases h3 : ds.length ≤ 3
    · rw [if_pos h3] at hc
      exact Or.inl hc
    · rw [if_neg h3] at hc
      rw [List.mem_append] at hc
      cases hc with
      | inl hc => exact Or.inl (List.mem_of_mem_take hc)
      | inr hc =>
        rw [List.mem_cons] at hc
        cases hc with
        | inl hc => exact Or.inr hc
        | inr hc =>
          have hlen : (ds.drop 3).length ≤ m := by
            rw [List.length_drop]
            omega
          cases ih (ds.drop 3) hlen c hc with
          | inl hc => exact Or.inl (List.mem_of_mem_drop hc)
          | inr hc => exact Or.inr hc

lemma groupThousands_mem (ds : Str) (c : Char) (hc : c ∈ groupThousands ds) :
    c ∈ ds ∨ c = Char.ofNat 44 := by
  rw [groupThousands, List.mem_reverse] at hc
  cases groupRev_mem_aux ds.reverse.length ds.reverse le_rfl c hc with
  | inl h => exact Or.inl (List.mem_reverse.mp h)
  | inr h => exact Or.inr h

lemma toLocaleStringInt_ascii (n : Int) :
    ∀ c ∈ toLocaleStringInt n, c.toNat < 128 := by
  have hbody : ∀ c ∈ groupThousands (natDigits n.natAbs), c.toNat < 128 := by
    intro c hc
    cases groupThousands_mem _ c hc with
    | inl h => have := natDigits_mem n.natAbs c h; omega
    | inr h => subst h; decide
  rw [toLocaleStringInt]
  by_cases hn : n < 0
  · rw [if_pos hn]
    intro c hc
    rw [List.mem_cons] at hc
    cases hc with
    | inl h => subst h; decide
    | inr h => exact hbody c h
  · rw [if_neg hn]
    exact hbody

lemma intToStr_ascii (n : Int) : ∀ c ∈ intToStr n, c.toNat < 128 := by
  have hbody : ∀ c ∈ natDigits n.natAbs, c.toNat < 128 := by
    intro c hc
    have := natDigits_mem n.natAbs c hc
    omega
  rw [intToStr]
  by_cases hn : n < 0
  · rw [if_pos hn]
    intro c hc
    rw [List.mem_cons] at hc
    cases hc with
    | inl h => subst h; decide
    | inr h => exact hbody c h
  · rw [if_neg hn]
    exact hbody

lemma mem_of_contains {l₁ l₂ : Str} (h : l₁ <:+: l₂) {a : Char}
    (ha : a ∈ l₁) : a ∈ l₂ := by
  obtain ⟨s, t, rfl⟩ := h
  rw [List.mem_append, List.mem_append]
  exact Or.inl (Or.inr ha)

/-- The Arabic currency literal of the page. -/
def arabicCurrency : Str := ("ج.م").toList

lemma egp_ascii : ∀ c ∈ ("EGP ").toList, c.toNat < 128 := by decide

lemma arabic_not_contains (s : Str) (hs : ∀ c ∈ s, c.toNat < 128) :
    ¬ (arabicCurrency <:+: ("EGP ").toList ++ s) := by
  intro h
  have hj : ('ج' : Char) ∈ arabicCurrency := by decide
  have hmem := mem_of_contains h hj
  rw [List.mem_append] at hmem
  cases hmem with
  | inl hm => exact absurd (egp_ascii _ hm) (by decide)
  | inr hm => exact absurd (hs _ hm) (by decide)

/-- Claim C10: for every scalar price and every range with equal minimum and
maximum, both `formatPrice` variants return a string prefixed with the
English currency literal "EGP " regardless of the language, and the Arabic
currency literal never occurs in those outputs (it can only occur in the
missing/empty-price and unequal-bounds branches). -/
theorem C10_formatPrice_currency (n p : Int) (ps : List Int) (lang : Lang) :
    (("EGP ").toList <+: formatPrice (.num n) lang ∧
     ¬ (arabicCurrency <:+: formatPrice (.num n) lang) ∧
     ("EGP ").toList <+: formatPriceV2 (.num n) lang ∧
     ¬ (arabicCurrency <:+: formatPriceV2 (.num n) lang)) ∧
    (listMin p ps = listMax p ps →
      ("EGP ").toList <+: formatPrice (.arr (p :: ps)) lang ∧
      ¬ (arabicCurrency <:+: formatPrice (.arr (p :: ps)) lang) ∧
      ("EGP ").toList <+: formatPriceV2 (.arr (p :: ps)) lang ∧
      ¬ (arabicCurrency <:+: formatPriceV2 (.arr (p :: ps)) lang)) := by
  constructor
  · refine ⟨⟨toLocaleStringInt n, rfl⟩, ?_, ⟨intToStr n, rfl⟩, ?_⟩
    · exact arabic_not_contains _ (toLocaleStringInt_ascii n)
    · exact arabic_not_contains _ (intToStr_ascii n)
  · intro heq
    have h1 : formatPrice (.arr (p :: ps)) lang
        = ("EGP ").toList ++ toLocaleStringInt (listMax p ps) := by
      simp [formatPrice, heq]
    have h2 : formatPriceV2 (.arr (p :: ps)) lang
        = ("EGP ").toList ++ intToStr (listMax p ps) := by
      simp [formatPriceV2, heq]
    rw [h1, h2]
    refine ⟨⟨toLocaleStringInt (listMax p ps), rfl⟩, ?_,
      ⟨intToStr (listMax p ps), rfl⟩, ?_⟩
    · exact arabic_not_contains _ (toLocaleStringInt_ascii _)
    · exact arabic_not_contains _ (intToStr_ascii _)

/-- Witness for C10 at a concrete equal-bounds range in Arabic. -/
theorem C10_formatPrice_currency_witness :
    ("EGP ").toList <+: formatPrice (.arr [(5 : Int), 5]) .ar ∧
    ¬ (arabicCurrency <:+: formatPrice (.arr [(5 : Int), 5]) .ar) ∧
    ("EGP ").toList <+: formatPriceV2 (.arr [(5 : Int), 5]) .ar ∧
    ¬ (arabicCurrency <:+: formatPriceV2 (.arr [(5 : Int), 5]) .ar) :=
  (C10_formatPrice_currency 0 5 [5] .ar).2 (by decide)

/-! ### The order composer (`handleWhatsAppOrder`, first page variant) -/

/-- The language-specific greeting line. -/
def greeting : Lang → Str
  | .en => ("Hello! I'd like to place an order from Matbakh Gedity.\n\n").toList
  | .ar => ("مرحباً! أود تقديم طلب من مطبخ جديتي.\n\n").toList

/-- The language-specific total label. -/
def totalLabel : Lang → Str
  | .en => ("Total").toList
  | .ar => ("المجموع").toList

/-- The language-specific notes label. -/
def notesLabel : Lang → Str
  | .en => ("Special Instructions").toList
  | .ar => ("تعليمات خاصة").toList

/-- The language-specific closing line. -/
def thanksText : Lang → Str
  | .en => ("Thank you!").toList
  | .ar => ("شكراً!").toList

/-- `(item.price || 0) * (item.quantity || 0)`: the line total. -/
def lineTotal (item : CartLine) : Int := (item.price.getD 0) * item.quantity

/-- `language === 'ar' && item.name_ar ? item.name_ar : item.name`:
the localized-or-primary display name (truthy Arabic name wins). -/
def displayName (language : Lang) (item : CartLine) : Str :=
  if language = .ar ∧ jsTruthy item.name_ar = true then jsStr item.name_ar
  else jsStr item.name

/-- One bullet line of the order message:
`• ${item.quantity}x ${itemName} - EGP ${lineTotal.toLocaleString()}\n`. -/
def bulletLine (language : Lang) (item : CartLine) : Str :=
  ("• ").toList ++ intToStr item.quantity ++ ("x ").toList
    ++ displayName language item ++ (" - EGP ").toList
    ++ toLocaleStringInt (lineTotal item) ++ ("\n").toList

/-- The order message, accumulated exactly as the source does: start from
the greeting, append one bullet line per cart entry, append the total line,
append the notes section when the notes are truthy, append the closing. -/
def orderMessage (language : Lang) (cart : Cart) (orderNotes : Str) : Str :=
  let m1 := cart.foldl (fun m item => m ++ bulletLine language item)
    (greeting language)
  let m2 := m1 ++ ("\n").toList ++ totalLabel language ++ (": EGP ").toList
    ++ toLocaleStringInt (getTotalPrice cart)
  let m3 := if orderNotes.isEmpty then m2
    else m2 ++ ("\n\n").toList ++ notesLabel language ++ (": ").toList ++ orderNotes
  m3 ++ ("\n\n").toList ++ thanksText language

/-- The decimal digit or uppercase hex letter for a value `0..15`. -/
def hexDigitChar (d : Nat) : Char :=
  if d < 10 then digitChar d else Char.ofNat (55 + d)

/-- `%XX` percent-escape of one byte. -/
def pctByte (b : Nat) : Str :=
  [Char.ofNat 37, hexDigitChar (b / 16), hexDigitChar (b % 16)]

/-- The UTF-8 bytes of one code point. -/
def utf8Bytes (c : Char) : List Nat :=
  let n := c.toNat
  if n < 128 then [n]
  else if n < 2048 then [192 + n / 64, 128 + n % 64]
  else if n < 65536 then [224 + n / 4096, 128 + (n / 64) % 64, 128 + n % 64]
  else [240 + n / 262144, 128 + (n / 4096) % 64, 128 + (n / 64) % 64, 128 + n % 64]

/-- The characters `encodeURIComponent` leaves unescaped: ASCII letters,
digits, and `- _ . ! ~ * ' ( )`. -/
def isUnreservedChar (c : Char) : Bool :=
  (65 ≤ c.toNat && c.toNat ≤ 90) || (97 ≤ c.toNat && c.toNat ≤ 122) ||
  (48 ≤ c.toNat && c.toNat ≤ 57) ||
  decide (c ∈ [Char.ofNat 45, Char.ofNat 95, Char.ofNat 46, Char.ofNat 33,
    Char.ofNat 126, Char.ofNat 42, Char.ofNat 39, Char.ofNat 40, Char.ofNat 41])

/-- `encodeURIComponent`: unreserved characters pass through, every other
character is replaced by the percent-escapes of its UTF-8 bytes. -/
def encodeURIComponent (s : Str) : Str :=
  (s.map (fun c =>
    if isUnreservedChar c then [c] else ((utf8Bytes c).map pctByte).flatten)).flatten

/-- The component state the order composer reads. -/
structure AppState where
  cart : Cart
  orderNotes : Str
  language : Lang
  deriving DecidableEq, Repr

/-- The hard-coded recipient of the first page variant. -/
def whatsappNumber : Str := ("+201035087703").toList

/-- `handleWhatsAppOrder()`: build the order message, percent-encode it into
the fixed `wa.me` URL, and request navigation (`window.open(url, '_blank')`).
No state setter is invoked, so the model returns the navigation URL together
with the unchanged component state. -/
def handleWhatsAppOrder (s : AppState) : Str × AppState :=
  (("https://wa.me/").toList ++ whatsappNumber ++ ("?text=").toList
    ++ encodeURIComponent (orderMessage s.language s.cart s.orderNotes), s)

lemma foldl_append_eq_join (f : CartLine → Str) (cart : Cart) :
    ∀ m0 : Str, cart.foldl (fun m item => m ++ f item) m0
      = m0 ++ (cart.map f).flatten := by
  induction cart with
  | nil => intro m0; simp
  | cons l c ih =>
    intro m0
    rw [List.foldl_cons, ih (m0 ++ f l), List.map_cons, List.flatten_cons,
      List.append_assoc]

lemma orderMessage_decomposition (language : Lang) (cart : Cart)
    (orderNotes : Str) :
    orderMessage language cart orderNotes
      = greeting language
        ++ (cart.map (bulletLine language)).flatten
        ++ ("\n").toList ++ totalLabel language ++ (": EGP ").toList
        ++ toLocaleStringInt (getTotalPrice cart)
        ++ (if orderNotes = [] then []
            else ("\n\n").toList ++ notesLabel language ++ (": ").toList
              ++ orderNotes)
        ++ ("\n\n").toList ++ thanksText language := by
  unfold orderMessage
  rw [foldl_append_eq_join (bulletLine language) cart (greeting language)]
  by_cases hn : orderNotes = []
  · subst hn
    simp [List.append_assoc]
  · have hni : ¬ (orderNotes.isEmpty = true) := by
      cases orderNotes with
      | nil => exact absurd rfl hn
      | cons c cs => exact Bool.false_ne_true
    simp [hn, hni, List.append_assoc]

/-- Claim C7: the composed order message is exactly a greeting line, one
bullet line per cart entry (quantity, localized-or-primary name, line
total), a grand-total line, a notes section present iff the notes are
non-empty, and a closing thank-you line; the URL handed to the new browsing
context is the fixed `wa.me` recipient URL with the percent-encoded message
as its `text` parameter, and the component state (cart, notes, language) is
returned unchanged. -/
theorem C7_order_composer (s : AppState) :
    handleWhatsAppOrder s
      = (("https://wa.me/").toList ++ whatsappNumber ++ ("?text=").toList
          ++ encodeURIComponent
            (greeting s.language
              ++ (s.cart.map (bulletLine s.language)).flatten
              ++ ("\n").toList ++ totalLabel s.language ++ (": EGP ").toList
              ++ toLocaleStringInt (getTotalPrice s.cart)
              ++ (if s.orderNotes = [] then []
                  else ("\n\n").toList ++ notesLabel s.language ++ (": ").toList
                    ++ s.orderNotes)
              ++ ("\n\n").toList ++ thanksText s.language), s) := by
  rw [handleWhatsAppOrder, orderMessage_decomposition]

/-! ### Heap-level model of the filter/sort derivation (frame property)

JavaScript arrays are references into a mutable store.  To state that the
derivation never mutates the catalog, the item arrays live in an explicit
heap: the catalog holds references, `[...items]` allocates a fresh copy,
`filter` allocates a fresh array, and `sort` overwrites the array its
receiver reference designates in place. -/

/-- The store of item arrays; a reference is an index into it. -/
abbrev Heap := List (List MenuItem)

/-- Dereference an array (out-of-range reads give the empty array). -/
def readArr (h : Heap) (r : Nat) : List MenuItem := h.getD r []

/-- A category record whose `items` field is an array reference. -/
structure CategoryDataH where
  name : Option Str
  name_ar : Option Str
  heroImage : Option Str
  items : Option Nat
  deriving DecidableEq, Repr

/-- The catalog object with heap references for the item arrays. -/
abbrev CatalogH := List (Str × CategoryDataH)

/-- Property access `menuData[selectedCategory]` on the heap catalog. -/
def lookupCategoryH (menuData : CatalogH) (key : Str) : Option CategoryDataH :=
  (menuData.find? (fun p => decide (p.1 = key))).map Prod.snd

/-- `let items = [...categoryData.items]`: allocate a fresh copy of the
array `r` designates; the fresh reference is the old heap length. -/
def heapAfterCopy (h : Heap) (r : Nat) : Heap := h ++ [readArr h r]

/-- The reference `items` holds after the filter statement: the copy if the
query is empty, else the fresh array `filter` allocated. -/
def refAfterFilter (h : Heap) (r : Nat) (searchQuery : Str) : Nat :=
  if searchQuery.isEmpty then h.length else (heapAfterCopy h r).length

/-- The heap after the filter statement. -/
def heapAfterFilter (h : Heap) (r : Nat) (searchQuery : Str) : Heap :=
  if searchQuery.isEmpty then heapAfterCopy h r
  else heapAfterCopy h r
    ++ [(readArr (heapAfterCopy h r) h.length).filter (matchesQuery searchQuery)]

/-- The copy / filter / in-place sort sequence of
`getFilteredAndSortedItems()` run on the array reference of the selected
category: returns the derived list and the heap after the in-place sort. -/
def deriveFromRef (h : Heap) (r : Nat) (searchQuery : Str)
    (priceSort : SortMode) : List MenuItem × Heap :=
  match priceSort with
  | .default =>
    (readArr (heapAfterFilter h r searchQuery) (refAfterFilter h r searchQuery),
     heapAfterFilter h r searchQuery)
  | .lowHigh =>
    (sortK ltAsc minKey
      (readArr (heapAfterFilter h r searchQuery) (refAfterFilter h r searchQuery)),
     (heapAfterFilter h r searchQuery).set (refAfterFilter h r searchQuery)
       (sortK ltAsc minKey
         (readArr (heapAfterFilter h r searchQuery)
           (refAfterFilter h r searchQuery))))
  | .highLow =>
    (sortK ltDesc maxKey
      (readArr (heapAfterFilter h r searchQuery) (refAfterFilter h r searchQuery)),
     (heapAfterFilter h r searchQuery).set (refAfterFilter h r searchQuery)
       (sortK ltDesc maxKey
         (readArr (heapAfterFilter h r searchQuery)
           (refAfterFilter h r searchQuery))))

/-- `getFilteredAndSortedItems()` at heap level: the early `[]` returns for
a missing category or missing items leave the heap untouched. -/
def getFilteredAndSortedItemsH (menuData : CatalogH) (h : Heap)
    (selectedCategory searchQuery : Str) (priceSort : SortMode) :
    List MenuItem × Heap :=
  match lookupCategoryH menuData selectedCategory with
  | none => ([], h)
  | some categoryData =>
    match categoryData.items with
    | none => ([], h)
    | some r => deriveFromRef h r searchQuery priceSort

lemma readArr_append (h : Heap) (l : List MenuItem) (r : Nat)
    (hr : r < h.length) : readArr (h ++ [l]) r = readArr h r :=
  List.getD_append h [l] [] r hr

lemma readArr_set_ne (h : Heap) (i : Nat) (l : List MenuItem) (r : Nat)
    (hne : r ≠ i) : readArr (h.set i l) r = readArr h r := by
  rw [readArr, readArr, List.getD_eq_getElem?_getD, List.getD_eq_getElem?_getD,
    List.getElem?_set_ne (fun he => hne he.symm)]

lemma readArr_heapAfterFilter (h : Heap) (r : Nat) (q : Str) (r' : Nat)
    (hr : r' < h.length) :
    readArr (heapAfterFilter h r q) r' = readArr h r' := by
  rw [heapAfterFilter]
  by_cases hq : q.isEmpty
  · rw [if_pos hq]
    exact readArr_append h _ r' hr
  · rw [if_neg hq]
    rw [readArr_append, heapAfterCopy, readArr_append h _ r' hr]
    rw [heapAfterCopy, List.length_append]
    simp
    omega

lemma refAfterFilter_ge (h : Heap) (r : Nat) (q : Str) :
    h.length ≤ refAfterFilter h r q := by
  rw [refAfterFilter]
  by_cases hq : q.isEmpty
  · rw [if_pos hq]
  · rw [if_neg hq, heapAfterCopy, List.length_append]
    simp

lemma deriveFromRef_frame (h : Heap) (r : Nat) (q : Str) (sort : SortMode)
    (r' : Nat) (hr : r' < h.length) :
    readArr (deriveFromRef h r q sort).2 r' = readArr h r' := by
  have hne : r' ≠ refAfterFilter h r q := by
    have := refAfterFilter_ge h r q
    omega
  cases sort with
  | default => exact readArr_heapAfterFilter h r q r' hr
  | lowHigh =>
    show readArr ((heapAfterFilter h r q).set (refAfterFilter h r q) _) r'
        = readArr h r'
    rw [readArr_set_ne _ _ _ _ hne]
    exact readArr_heapAfterFilter h r q r' hr
  | highLow =>
    show readArr ((heapAfterFilter h r q).set (refAfterFilter h r q) _) r'
        = readArr h r'
    rw [readArr_set_ne _ _ _ _ hne]
    exact readArr_heapAfterFilter h r q r' hr

/-- Claim C9: the filter/sort derivation never mutates the catalog.  For
every array present in the heap before the derivation — in particular every
category's item array, hence the catalog's categories, items and their
order — reading it after the derivation gives exactly what it gave before:
the copy (`[...items]`) is sorted, never the catalog's array. -/
theorem C9_catalog_not_mutated (menuData : CatalogH) (h : Heap)
    (sel query : Str) (sort : SortMode) (r' : Nat) (hr : r' < h.length) :
    readArr (getFilteredAndSortedItemsH menuData h sel query sort).2 r'
      = readArr h r' := by
  unfold getFilteredAndSortedItemsH
  cases lookupCategoryH menuData sel with
  | none => rfl
  | some cd =>
    show readArr (match cd.items with
      | none => (([] : List MenuItem), h)
      | some r => deriveFromRef h r query sort).2 r' = readArr h r'
    cases cd.items with
    | none => rfl
    | some r => exact deriveFromRef_frame h r query sort r' hr

/-- A concrete one-category heap catalog. -/
def demoHeap : Heap := [[koshariItem, fattahItem]]

/-- The heap-level demo catalog pointing at `demoHeap`'s only array. -/
def demoCatalogH : CatalogH :=
  [(("mains").toList,
    { name := some (("Mains").toList), name_ar := none, heroImage := none,
      items := some 0 })]

/-- Witness for C9 at a concrete input: sorting low-to-high leaves the
catalog's array unchanged. -/
theorem C9_catalog_not_mutated_witness :
    readArr (getFilteredAndSortedItemsH demoCatalogH demoHeap (("mains").toList)
        [] .lowHigh).2 0
      = readArr demoHeap 0 :=
  C9_catalog_not_mutated demoCatalogH demoHeap (("mains").toList) [] .lowHigh 0
    (by decide)

end Matbakh
